import Mathlib

/-!
# ZKFi circuits: Risk-Neutral and Funding-Rate-Neutrality

Shallow embedding of `src/circuit/ZKRiskNeutral.go` and `src/circuit/zb_fr.go`.

Both circuits are compiled over the BN254 scalar field.  A `frontend.Variable`
holds an arbitrary integer (a Go `int` such as `-1`, or a wire value); every
gadget reads its arguments as residues modulo the field order, so the model
keeps variables as integers and reduces them at each gadget boundary.

A circuit's `Define` is modelled as the run of the constraint solver on a full
assignment: every assertion either holds (`Except.ok ()`) or makes the whole
system unsatisfiable (`Except.error`), which is what `groth16.Prove` reports.

The gadgets called by `Define` belong to the gnark library (`frontend.API`,
`std/math/bits`, `std/math/cmp`).  They are embedded with the behaviour gnark
documents for them: field arithmetic is exact modulo the field order, `Cmp` and
`AssertIsLessOrEqual` order the canonical representatives in `[0, p)`, and the
bounded comparator is a binary decomposition of a difference on
`absDiffUpp.BitLen()` bits.  The internal wires of every gadget are determined
by its inputs, so a witness exists exactly when this run succeeds.
-/

namespace ZKFi

/-- Order of the scalar field of BN254, the value of `ecc.BN254.ScalarField()`. -/
def ScalarField : Int :=
  21888242871839275222246405745257275088548364400416034343698204186575808495617

/-- Canonical integer in `[0, ScalarField)` that a `frontend.Variable` stands
for.  A variable is modelled as an `Int`: any integer, read modulo `ScalarField`. -/
def val (v : Int) : Int := v % ScalarField

/-- Outcome of building and solving constraints: `ok`, or the error raised by a
failed assertion or a panicking constructor. -/
abbrev Solver := Except String

/-- Number of binary digits of `n`, with `fuel` bounding the number of halvings. -/
def bitLenAux : Nat → Nat → Nat
  | 0, _ => 0
  | fuel + 1, n => if n = 0 then 0 else bitLenAux fuel (n / 2) + 1

/-- Go `(*big.Int).BitLen`: length of the binary representation of `|x|`. -/
def BitLen (x : Int) : Nat := bitLenAux x.natAbs x.natAbs

namespace math

/-- Go constant `math.MaxInt64`. -/
def MaxInt64 : Int := 9223372036854775807

end math

/-! ## `frontend.API` -/

namespace api

/-- Go `api.Add(i1, i2, in...)`: field addition of all the arguments. -/
def Add (i1 i2 : Int) (rest : List Int) : Int :=
  (rest.foldl (fun acc x => acc + x) (i1 + i2)) % ScalarField

/-- Go `api.Sub(i1, i2)`: field subtraction. -/
def Sub (i1 i2 : Int) : Int := (i1 - i2) % ScalarField

/-- Go `api.Neg(i1)`: field negation. -/
def Neg (i1 : Int) : Int := (-i1) % ScalarField

/-- Go `api.Mul(i1, i2)`: field multiplication. -/
def Mul (i1 i2 : Int) : Int := (i1 * i2) % ScalarField

/-- Go `api.IsZero(i1)`: `1` when `i1` is the zero element, `0` otherwise. -/
def IsZero (i1 : Int) : Int := if val i1 = 0 then 1 else 0

/-- Go `api.Cmp(i1, i2)`: `1` if `i1 > i2`, `0` if `i1 = i2`, `-1` if `i1 < i2`,
on the canonical representatives of the two field elements (both arguments are
decomposed on the full field bit length).  The assignment of `main` in
`ZKRiskNeutral.go`, `leverage = 1`, `leverageUpper = 3`, `leverageConfirm = -1`,
relies on this orientation. -/
def Cmp (i1 i2 : Int) : Int :=
  if val i1 < val i2 then -1 else if val i1 = val i2 then 0 else 1

/-- Go `api.AssertIsBoolean(i1)`: fails unless `i1` is `0` or `1`. -/
def AssertIsBoolean (i1 : Int) : Solver Unit :=
  if val i1 = 0 ∨ val i1 = 1 then pure () else throw "AssertIsBoolean: not 0 or 1"

/-- Go `api.Select(b, i1, i2)`: asserts that `b` is boolean and yields `i1`
when `b` is `1`, `i2` when `b` is `0`, computed as `i2 + b * (i1 - i2)`. -/
def Select (b i1 i2 : Int) : Solver Int := do
  AssertIsBoolean b
  pure (Add i2 (Mul b (Sub i1 i2)) [])

/-- Go `api.AssertIsEqual(i1, i2)`: fails if `i1 != i2`. -/
def AssertIsEqual (i1 i2 : Int) : Solver Unit :=
  if val i1 = val i2 then pure () else throw "AssertIsEqual: i1 != i2"

/-- Go `api.AssertIsDifferent(i1, i2)`: fails if `i1 == i2`. -/
def AssertIsDifferent (i1 i2 : Int) : Solver Unit :=
  if val i1 = val i2 then throw "AssertIsDifferent: i1 == i2" else pure ()

/-- Go `api.AssertIsLessOrEqual(v, bound)`: fails if `v > bound`, on the
canonical representatives of the two field elements; there is no signed
reading, so a residue such as `p - 1` is a large positive value. -/
def AssertIsLessOrEqual (v bound : Int) : Solver Unit :=
  if val v ≤ val bound then pure () else throw "AssertIsLessOrEqual: v > bound"

end api

/-! ## `std/math/bits` -/

namespace bits

/-- Go `bits.FromBinary`: recomposition `Σ b[i] * 2^i` of a little-endian bit list. -/
def FromBinary : List Int → Int
  | [] => 0
  | b :: bs => b + 2 * FromBinary bs

/-- The `nbDigits` low binary digits of `x`, least significant first. -/
def nbitsAux (x : Int) : Nat → List Int
  | 0 => []
  | n + 1 => x % 2 :: nbitsAux (x / 2) n

/-- Output of the `NBits` hint: the `nbDigits` low bits of the canonical value,
least significant first. -/
def NBits (v : Int) (nbDigits : Nat) : List Int :=
  nbitsAux (val v) nbDigits

/-- Go `bits.ToBinary(api, v, bits.WithNbDigits(nbDigits))` for `nbDigits` below
the field bit length: the bits come from the hint, each is asserted boolean and
their recomposition is asserted equal to `v`. -/
def ToBinary (v : Int) (nbDigits : Nat) : Solver (List Int) := do
  let bs := NBits v nbDigits
  bs.forM api.AssertIsBoolean
  api.AssertIsEqual (FromBinary bs) v
  pure bs

end bits

/-! ## `std/math/cmp` -/

namespace cmp

/-- Go `cmp.BoundedComparator`: the bit length of the bound on `|a - b|`. -/
structure BoundedComparator where
  absDiffUppBitLen : Nat
  deriving DecidableEq, Repr

/-- Go `cmp.NewBoundedComparator(api, absDiffUpp, allowUnsafe)`; a panic of the
constructor is an error. -/
def NewBoundedComparator (absDiffUpp : Int) (allowUnsafe : Bool) :
    Solver BoundedComparator :=
  if absDiffUpp ≤ 0 ∨ ScalarField ≤ absDiffUpp then
    throw "absDiffUpp must be a positive number smaller than the field order"
  else if !allowUnsafe && BitLen (ScalarField - absDiffUpp) ≤ BitLen absDiffUpp then
    throw "the specified absDiffUpp is too high"
  else pure ⟨BitLen absDiffUpp⟩

/-- Go `BoundedComparator.assertIsNonNegative(a)`: one binary decomposition of
`a` on `absDiffUppBitLen` bits. -/
def BoundedComparator.assertIsNonNegative (bc : BoundedComparator) (a : Int) :
    Solver Unit := do
  let _ ← bits.ToBinary a bc.absDiffUppBitLen
  pure ()

/-- Go `BoundedComparator.AssertIsLessEq(a, b)`: `b - a` is non-negative. -/
def BoundedComparator.AssertIsLessEq (bc : BoundedComparator) (a b : Int) :
    Solver Unit :=
  bc.assertIsNonNegative (api.Sub b a)

end cmp

/-! ## `src/circuit/zb_fr.go` -/

/-- Go `type ZbFrCircuit struct`. -/
structure ZbFrCircuit where
  Leverage : Int
  DeltaSpot : Int
  DeltaPerpLong : Int
  DeltaPerpShort : Int
  LeverageUpper : Int
  DeltaUpper : Int
  ProjectId : Int
  deriving DecidableEq, Repr

/-- Go `func (circuit *ZbFrCircuit) Define(api frontend.API) error`. -/
def ZbFrCircuit.Define (circuit : ZbFrCircuit) : Solver Unit := do
  api.AssertIsEqual circuit.ProjectId 10005
  let deltaCheck ← cmp.NewBoundedComparator math.MaxInt64 false
  deltaCheck.AssertIsLessEq 0 circuit.DeltaSpot
  deltaCheck.AssertIsLessEq 0 circuit.DeltaPerpLong
  deltaCheck.AssertIsLessEq circuit.DeltaPerpShort 0
  let percent ← cmp.NewBoundedComparator 100 false
  api.AssertIsLessOrEqual circuit.DeltaUpper 100
  percent.AssertIsLessEq 0 circuit.DeltaUpper
  api.AssertIsLessOrEqual circuit.LeverageUpper 100
  percent.AssertIsLessEq 0 circuit.LeverageUpper
  percent.AssertIsLessEq 1 circuit.Leverage
  api.AssertIsDifferent (api.Cmp circuit.Leverage circuit.LeverageUpper) 1
  deltaCheck.AssertIsLessEq (api.Add circuit.DeltaPerpLong circuit.DeltaPerpShort []) 0
  let net := api.Add circuit.DeltaPerpLong circuit.DeltaPerpShort []
  let boolHelper := api.IsZero (api.Add (api.Cmp (api.Neg net) circuit.DeltaSpot) 1 [])
  let max ← api.Select boolHelper circuit.DeltaSpot (api.Neg net)
  let r1 ← api.Select boolHelper
    (api.Add circuit.DeltaPerpLong circuit.DeltaPerpShort [circuit.DeltaSpot])
    (api.Neg (api.Add circuit.DeltaPerpLong circuit.DeltaPerpShort [circuit.DeltaSpot]))
  let r2 := api.Mul r1 100
  let r3 := api.Mul circuit.DeltaUpper max
  api.AssertIsDifferent (api.Cmp r2 r3) 1

/-! ## `src/circuit/ZKRiskNeutral.go` -/

/-- Go `type ZKRiskNeutralCircuit struct`. -/
structure ZKRiskNeutralCircuit where
  Leverage : Int
  DeltaMax : Int
  DeltaMin : Int
  LeverageUpper : Int
  DeltaUpper : Int
  LeverageConfirm : Int
  DeltaConfirm : Int
  deriving DecidableEq, Repr

/-- Go `func (circuit *ZKRiskNeutralCircuit) Define(api frontend.API) error`. -/
def ZKRiskNeutralCircuit.Define (circuit : ZKRiskNeutralCircuit) : Solver Unit := do
  api.AssertIsLessOrEqual circuit.DeltaMin circuit.DeltaMax
  api.AssertIsLessOrEqual 0 circuit.DeltaMin
  api.AssertIsLessOrEqual circuit.DeltaUpper 100
  api.AssertIsLessOrEqual 0 circuit.DeltaUpper
  api.AssertIsLessOrEqual 0 circuit.LeverageUpper
  api.AssertIsLessOrEqual circuit.LeverageUpper 100
  api.AssertIsLessOrEqual 0 circuit.Leverage
  api.AssertIsEqual (api.Cmp circuit.Leverage circuit.LeverageUpper) circuit.LeverageConfirm
  let r1 := api.Sub circuit.DeltaMax circuit.DeltaMin
  let r2 := api.Mul r1 100
  let r3 := api.Mul circuit.DeltaUpper circuit.DeltaMax
  api.AssertIsEqual (api.Cmp r2 r3) circuit.DeltaConfirm

/-- Assignment of `main` in `zb_fr.go`: `ZbFrCircuit{1, 0, 0, 0, 3, 5, 10005}`. -/
def zbFrAssignment : ZbFrCircuit := ⟨1, 0, 0, 0, 3, 5, 10005⟩

/-- Assignment of `main` in `ZKRiskNeutral.go`:
`ZKRiskNeutralCircuit{1, 100, 99, 3, 5, -1, -1}`. -/
def riskNeutralAssignment : ZKRiskNeutralCircuit := ⟨1, 100, 99, 3, 5, -1, -1⟩


/-- Scenario A with `leverage = -1`; the comparison bit then reads `+1`. -/
def negLeverageAssignment : ZKRiskNeutralCircuit := ⟨-1, 100, 99, 3, 5, 1, -1⟩

/-- Scenario A with a negative delta range: `deltaMax = -1`, `deltaMin = -2`. -/
def negDeltaMinAssignment : ZKRiskNeutralCircuit := ⟨1, -1, -2, 3, 5, -1, -1⟩

/-- Least integer `d` with `100 * d ≥ ScalarField`, so that `100 * d` wraps to `83`. -/
def wrapDeltaMax : Int :=
  218882428718392752222464057452572750885483644004160343436982041865758084957

/-- Scenario A with `deltaMax = wrapDeltaMax` and `deltaMin = 0`. -/
def wrapAssignment : ZKRiskNeutralCircuit := ⟨1, wrapDeltaMax, 0, 3, 5, -1, -1⟩

/-! ## Readings of field elements used by the specification -/

/-- The non-positive integer in `(-ScalarField, 0]` that a variable is the
residue of: the signed reading of a short leg. -/
def nonPosVal (v : Int) : Int := if val v = 0 then 0 else val v - ScalarField

/-- Three-way comparison as the specification words it: `-1` (the field element
`ScalarField - 1`) when `a < b`, `0` when `a = b` and `+1` when `a > b`. -/
def threeWay (a b : Int) : Int :=
  if a < b then ScalarField - 1 else if a = b then 0 else 1

deriving instance DecidableEq for Except

/-! ## Basic facts -/


/-! ## Solver monad -/

theorem bind_ok_iff {α β : Type} (x : Solver α) (f : α → Solver β) (b : β) :
    (x >>= f) = Except.ok b ↔ ∃ a, x = Except.ok a ∧ f a = Except.ok b := by
  cases x with
  | error e => simp [bind, Except.bind]
  | ok a => simp [bind, Except.bind]

theorem bind_unit_ok_iff {β : Type} (x : Solver Unit) (f : Unit → Solver β) (b : β) :
    (x >>= f) = Except.ok b ↔ x = Except.ok () ∧ f () = Except.ok b := by
  rw [bind_ok_iff]
  constructor
  · rintro ⟨a, h1, h2⟩; exact ⟨h1, h2⟩
  · rintro ⟨h1, h2⟩; exact ⟨(), h1, h2⟩

theorem assert_ok_iff (c : Prop) [Decidable c] (e : String) :
    (if c then (pure () : Solver Unit) else throw e) = Except.ok () ↔ c := by
  by_cases h : c
  · simp [h, pure, Except.pure]
  · simp [h, throw, throwThe, MonadExceptOf.throw]

theorem ScalarField_pos : 0 < ScalarField := by decide

theorem val_nonneg (v : Int) : 0 ≤ val v := Int.emod_nonneg _ (by decide)

theorem val_lt (v : Int) : val v < ScalarField := Int.emod_lt_of_pos _ ScalarField_pos

theorem val_of_range {x : Int} (h0 : 0 ≤ x) (h1 : x < ScalarField) : val x = x :=
  Int.emod_eq_of_lt h0 h1

theorem val_val (v : Int) : val (val v) = val v :=
  val_of_range (val_nonneg v) (val_lt v)

namespace api

theorem AssertIsEqual_ok (a b : Int) :
    AssertIsEqual a b = Except.ok () ↔ val a = val b := by
  unfold AssertIsEqual; exact assert_ok_iff _ _

theorem AssertIsBoolean_ok (a : Int) :
    AssertIsBoolean a = Except.ok () ↔ (val a = 0 ∨ val a = 1) := by
  unfold AssertIsBoolean; exact assert_ok_iff _ _

theorem AssertIsLessOrEqual_ok (a b : Int) :
    AssertIsLessOrEqual a b = Except.ok () ↔ val a ≤ val b := by
  unfold AssertIsLessOrEqual; exact assert_ok_iff _ _

theorem AssertIsDifferent_ok (a b : Int) :
    AssertIsDifferent a b = Except.ok () ↔ val a ≠ val b := by
  unfold AssertIsDifferent
  by_cases h : val a = val b
  · simp [h, throw, throwThe, MonadExceptOf.throw]
  · simp [h, pure, Except.pure]

theorem Select_IsZero (x i1 i2 : Int) :
    Select (IsZero x) i1 i2 = Except.ok (if val x = 0 then val i1 else val i2) := by
  unfold Select
  have hb : AssertIsBoolean (IsZero x) = Except.ok () := by
    rw [AssertIsBoolean_ok]
    unfold IsZero
    split
    · right; rfl
    · left; rfl
  rw [hb]
  show Except.ok _ = Except.ok _
  congr 1
  unfold IsZero Add Mul Sub
  simp only [List.foldl]
  by_cases h : val x = 0
  · simp only [h, if_true]
    unfold val ScalarField
    omega
  · simp only [h, if_false]
    unfold val ScalarField
    omega

end api

/-- With `fuel ≥ n` the halving loop reaches zero: the result is the exact number of
binary digits of `n`. -/
theorem bitLenAux_spec : ∀ fuel n : Nat, n ≤ fuel →
    n < 2 ^ bitLenAux fuel n ∧ (n ≠ 0 → 2 ^ (bitLenAux fuel n - 1) ≤ n) := by
  intro fuel
  induction fuel with
  | zero =>
    intro n hn
    have h0 : n = 0 := by omega
    subst h0
    simp [bitLenAux]
  | succ fuel ih =>
    intro n hn
    by_cases h0 : n = 0
    · subst h0
      simp [bitLenAux]
    · have hhalf : n / 2 ≤ fuel := by omega
      obtain ⟨ih1, ih2⟩ := ih (n / 2) hhalf
      have hdef : bitLenAux (fuel + 1) n = bitLenAux fuel (n / 2) + 1 := by
        simp [bitLenAux, h0]
      rw [hdef]
      refine ⟨?_, fun _ => ?_⟩
      · rw [pow_succ]; omega
      · rw [Nat.add_sub_cancel]
        by_cases h2 : n / 2 = 0
        · have hk : bitLenAux fuel (n / 2) = 0 := by
            rw [h2]; cases fuel <;> simp [bitLenAux]
          rw [hk]
          simp only [pow_zero]
          omega
        · have hpos : bitLenAux fuel (n / 2) ≠ 0 := by
            intro hz
            rw [hz] at ih1
            simp only [pow_zero] at ih1
            omega
          have hle := ih2 h2
          have hsplit : 2 ^ bitLenAux fuel (n / 2) = 2 ^ (bitLenAux fuel (n / 2) - 1) * 2 := by
            rw [← pow_succ]
            congr 1
            omega
          rw [hsplit]
          omega

/-- `BitLen` is the bit length of the magnitude: `|x| < 2 ^ BitLen x`, and
`2 ^ (BitLen x - 1) ≤ |x|` for `x ≠ 0`. -/
theorem BitLen_spec (x : Int) :
    x.natAbs < 2 ^ BitLen x ∧ (x ≠ 0 → 2 ^ (BitLen x - 1) ≤ x.natAbs) := by
  obtain ⟨h1, h2⟩ := bitLenAux_spec x.natAbs x.natAbs (le_refl _)
  exact ⟨h1, fun hx => h2 (by simpa using hx)⟩

namespace api

/-- A constant `0` on the left of `AssertIsLessOrEqual` makes the assertion hold for
every field element. -/
theorem AssertIsLessOrEqual_zero (x : Int) : AssertIsLessOrEqual 0 x = Except.ok () := by
  rw [AssertIsLessOrEqual_ok]
  exact le_trans (le_of_eq (by decide)) (val_nonneg x)

end api

namespace bits

theorem emod_two_pow_succ (x : Int) (n : Nat) :
    x % 2 ^ (n + 1) = x % 2 + 2 * ((x / 2) % 2 ^ n) := by
  have hm : (0 : Int) < 2 ^ n := by positivity
  have h1 := Int.emod_add_ediv x 2
  have h2 := Int.emod_add_ediv (x / 2) (2 ^ n)
  have h3 := Int.emod_nonneg (x / 2) (ne_of_gt hm)
  have h4 := Int.emod_lt_of_pos (x / 2) hm
  have h5 : x = (x % 2 + 2 * ((x / 2) % 2 ^ n)) + 2 ^ (n + 1) * ((x / 2) / 2 ^ n) := by
    rw [pow_succ]
    linear_combination (-1 : Int) * h1 - 2 * h2
  have h6 : 0 ≤ x % 2 + 2 * ((x / 2) % 2 ^ n) := by omega
  have h7 : x % 2 + 2 * ((x / 2) % 2 ^ n) < 2 ^ (n + 1) := by
    rw [pow_succ]; omega
  conv_lhs => rw [h5]
  rw [Int.add_mul_emod_self_left]
  exact Int.emod_eq_of_lt h6 h7

theorem FromBinary_nbitsAux (n : Nat) :
    ∀ x : Int, FromBinary (nbitsAux x n) = x % 2 ^ n := by
  induction n with
  | zero => intro x; simp [nbitsAux, FromBinary]
  | succ n ih =>
    intro x
    simp only [nbitsAux, FromBinary, ih]
    exact (emod_two_pow_succ x n).symm

theorem forM_nbitsAux (n : Nat) :
    ∀ x : Int, (nbitsAux x n).forM api.AssertIsBoolean = Except.ok () := by
  induction n with
  | zero => intro x; rfl
  | succ n ih =>
    intro x
    have hb : api.AssertIsBoolean (x % 2) = Except.ok () := by
      rw [api.AssertIsBoolean_ok]
      unfold val ScalarField
      omega
    show (api.AssertIsBoolean (x % 2) >>= fun _ => (nbitsAux (x / 2) n).forM api.AssertIsBoolean)
      = Except.ok ()
    rw [bind_unit_ok_iff]
    exact ⟨hb, ih _⟩

/-- A binary decomposition on `n` bits, `2 ^ n` below the field order, succeeds
exactly for the canonical values below `2 ^ n`. -/
theorem ToBinary_ok (v : Int) (n : Nat) (hn : (2 : Int) ^ n ≤ ScalarField) :
    (∃ bs, ToBinary v n = Except.ok bs) ↔ val v < 2 ^ n := by
  have hpos : (0 : Int) < 2 ^ n := by positivity
  have hrec : val (FromBinary (NBits v n)) = val v % 2 ^ n := by
    unfold NBits
    rw [FromBinary_nbitsAux]
    exact val_of_range (Int.emod_nonneg _ (ne_of_gt hpos))
      (lt_of_lt_of_le (Int.emod_lt_of_pos _ hpos) hn)
  unfold ToBinary
  simp only [bind_unit_ok_iff, api.AssertIsEqual_ok, hrec]
  constructor
  · rintro ⟨bs, -, h, -⟩
    rw [← h]
    exact Int.emod_lt_of_pos _ hpos
  · intro h
    refine ⟨NBits v n, forM_nbitsAux n (val v), Int.emod_eq_of_lt (val_nonneg v) h, rfl⟩

end bits

namespace cmp

theorem assertIsNonNegative_ok (bc : BoundedComparator) (a : Int)
    (hn : (2 : Int) ^ bc.absDiffUppBitLen ≤ ScalarField) :
    bc.assertIsNonNegative a = Except.ok () ↔ val a < 2 ^ bc.absDiffUppBitLen := by
  rw [← bits.ToBinary_ok a _ hn]
  unfold BoundedComparator.assertIsNonNegative
  rw [bind_ok_iff]
  constructor
  · rintro ⟨bs, h, -⟩; exact ⟨bs, h⟩
  · rintro ⟨bs, h⟩; exact ⟨bs, h, rfl⟩

theorem AssertIsLessEq_ok (bc : BoundedComparator) (a b : Int)
    (hn : (2 : Int) ^ bc.absDiffUppBitLen ≤ ScalarField) :
    bc.AssertIsLessEq a b = Except.ok () ↔ (b - a) % ScalarField < 2 ^ bc.absDiffUppBitLen := by
  unfold BoundedComparator.AssertIsLessEq
  rw [assertIsNonNegative_ok _ _ hn]
  unfold api.Sub
  rw [show val ((b - a) % ScalarField) = (b - a) % ScalarField from val_val (b - a)]

set_option maxRecDepth 100000 in
theorem NewBoundedComparator_MaxInt64 :
    NewBoundedComparator math.MaxInt64 false = Except.ok ⟨63⟩ := by decide

set_option maxRecDepth 100000 in
theorem NewBoundedComparator_100 :
    NewBoundedComparator 100 false = Except.ok ⟨7⟩ := by decide

end cmp

theorem ok_bind {α β : Type} (a : α) (f : α → Solver β) :
    ((Except.ok a : Solver α) >>= f) = f a := rfl

theorem two_pow_63_le : (2 : Int) ^ 63 ≤ ScalarField := by decide

theorem two_pow_7_le : (2 : Int) ^ 7 ≤ ScalarField := by decide

theorem AssertIsLessEq_63 (a b : Int) :
    cmp.BoundedComparator.AssertIsLessEq ⟨63⟩ a b = Except.ok () ↔
      (b - a) % ScalarField < 2 ^ 63 :=
  cmp.AssertIsLessEq_ok ⟨63⟩ a b two_pow_63_le

theorem AssertIsLessEq_7 (a b : Int) :
    cmp.BoundedComparator.AssertIsLessEq ⟨7⟩ a b = Except.ok () ↔
      (b - a) % ScalarField < 2 ^ 7 :=
  cmp.AssertIsLessEq_ok ⟨7⟩ a b two_pow_7_le

/-- Contract of the bounded comparator: for signed integers whose difference is at most
`math.MaxInt64` in magnitude, `AssertIsLessEq a b` holds exactly when `a ≤ b`. -/
theorem AssertIsLessEq_63_contract (a b : Int) (h : |a - b| ≤ math.MaxInt64) :
    cmp.BoundedComparator.AssertIsLessEq ⟨63⟩ a b = Except.ok () ↔ a ≤ b := by
  rw [AssertIsLessEq_63]
  have h1 := neg_abs_le (a - b)
  have h2 := le_abs_self (a - b)
  unfold math.MaxInt64 at h
  unfold ScalarField
  omega

theorem val_neg_one : val (-1) = ScalarField - 1 := by decide

theorem val_zero : val 0 = 0 := by decide

theorem val_one : val 1 = 1 := by decide

theorem val_100 : val 100 = 100 := by decide

theorem val_10005 : val 10005 = 10005 := by decide

/-- Value of the three-way comparison. -/
theorem val_Cmp (a b : Int) :
    val (api.Cmp a b) =
      if val a < val b then ScalarField - 1 else if val a = val b then 0 else 1 := by
  unfold api.Cmp
  split_ifs
  · exact val_neg_one
  · exact val_zero
  · exact val_one

theorem Cmp_ne_one (a b : Int) : val (api.Cmp a b) ≠ val 1 ↔ val a ≤ val b := by
  rw [val_Cmp, val_one]
  unfold ScalarField
  split_ifs <;> omega

theorem Cmp_add_one (a b : Int) : val (api.Add (api.Cmp a b) 1 []) = 0 ↔ val a < val b := by
  have h : val (api.Add (api.Cmp a b) 1 []) = (val (api.Cmp a b) + 1) % ScalarField := by
    unfold api.Add val
    simp only [List.foldl]
    unfold ScalarField
    omega
  rw [h, val_Cmp]
  unfold ScalarField
  split_ifs <;> omega

theorem val_Mul (a b : Int) : val (api.Mul a b) = (val a * val b) % ScalarField := by
  unfold api.Mul val
  rw [Int.emod_emod_of_dvd _ (dvd_refl _), Int.mul_emod]

theorem val_Mul_small (a b : Int) (ha : val a ≤ 100) (hb : val b < 2 ^ 63) :
    val (api.Mul a b) = val a * val b := by
  rw [val_Mul]
  have ha0 := val_nonneg a
  have hb0 := val_nonneg b
  apply Int.emod_eq_of_lt (mul_nonneg ha0 hb0)
  calc val a * val b ≤ 100 * 2 ^ 63 := by
        apply mul_le_mul ha (le_of_lt hb) hb0 (by norm_num)
    _ < ScalarField := by decide

theorem val_Mul_100 (x : Int) (h : val x < 2 ^ 63) : val (api.Mul x 100) = 100 * val x := by
  unfold api.Mul val ScalarField at *
  omega

theorem sub_zero_emod (x : Int) : (x - 0) % ScalarField = val x := by
  unfold val; rw [sub_zero]

theorem zero_sub_emod (x : Int) : (0 - x) % ScalarField = val (-x) := by
  unfold val; rw [zero_sub]

theorem net_nonpos_iff (a b : Int) (ha : val a < 2 ^ 63) (hb : val (-b) < 2 ^ 63) :
    val (-(api.Add a b [])) < 2 ^ 63 ↔ val a ≤ val (-b) := by
  unfold api.Add val at *
  simp only [List.foldl]
  unfold ScalarField at *
  omega

theorem val_Neg_net (a b : Int) (h : val a ≤ val (-b)) :
    val (api.Neg (api.Add a b [])) = val (-b) - val a := by
  unfold api.Neg api.Add val at *
  simp only [List.foldl]
  unfold ScalarField at *
  omega

theorem val_total_pos (a b s : Int) (h : val a ≤ val (-b))
    (h2 : val (-b) - val a < val s) :
    val (api.Add a b [s]) = val s - (val (-b) - val a) := by
  unfold api.Add val at *
  simp only [List.foldl]
  unfold ScalarField at *
  omega

theorem val_total_neg (a b s : Int) (h2 : ¬ val (-b) - val a < val s) :
    val (api.Neg (api.Add a b [s])) = (val (-b) - val a) - val s := by
  unfold api.Neg api.Add val at *
  simp only [List.foldl]
  unfold ScalarField at *
  omega

/-- Arithmetic content of the Funding-Rate-Neutrality circuit: the solver
accepts an assignment exactly when the canonical values meet these bounds. -/
theorem ZbFr_Define_ok_iff (c : ZbFrCircuit) :
    c.Define = Except.ok () ↔
      val c.ProjectId = 10005 ∧ val c.DeltaSpot < 2 ^ 63 ∧ val c.DeltaPerpLong < 2 ^ 63 ∧
      val (-c.DeltaPerpShort) < 2 ^ 63 ∧ val c.DeltaUpper ≤ 100 ∧
      val c.LeverageUpper ≤ 100 ∧ 1 ≤ val c.Leverage ∧
      val c.Leverage ≤ val c.LeverageUpper ∧
      val c.DeltaPerpLong ≤ val (-c.DeltaPerpShort) ∧
      100 * |val c.DeltaSpot - (val (-c.DeltaPerpShort) - val c.DeltaPerpLong)| ≤
        val c.DeltaUpper *
          max (val c.DeltaSpot) (val (-c.DeltaPerpShort) - val c.DeltaPerpLong) := by
  unfold ZbFrCircuit.Define
  simp only [bind_unit_ok_iff, cmp.NewBoundedComparator_MaxInt64, cmp.NewBoundedComparator_100,
    ok_bind, api.Select_IsZero, api.AssertIsEqual_ok, api.AssertIsLessOrEqual_ok,
    api.AssertIsDifferent_ok, AssertIsLessEq_63, AssertIsLessEq_7, Cmp_ne_one, Cmp_add_one,
    sub_zero_emod, zero_sub_emod, val_100, val_10005]
  have hlev0 := val_nonneg c.Leverage
  have hlev : (c.Leverage - 1) % ScalarField < 2 ^ 7 ∧ val c.Leverage ≤ 100 ↔
      1 ≤ val c.Leverage ∧ val c.Leverage ≤ 100 := by
    unfold val ScalarField at *
    omega
  -- the closing comparison, once the range checks are known
  have hfinal : val c.DeltaSpot < 2 ^ 63 → val (-c.DeltaPerpShort) < 2 ^ 63 →
      val c.DeltaUpper ≤ 100 → val c.DeltaPerpLong ≤ val (-c.DeltaPerpShort) →
      (val (api.Mul
          (if val (api.Neg (api.Add c.DeltaPerpLong c.DeltaPerpShort [])) < val c.DeltaSpot then
            val (api.Add c.DeltaPerpLong c.DeltaPerpShort [c.DeltaSpot])
          else val (api.Neg (api.Add c.DeltaPerpLong c.DeltaPerpShort [c.DeltaSpot]))) 100) ≤
        val (api.Mul c.DeltaUpper
          (if val (api.Neg (api.Add c.DeltaPerpLong c.DeltaPerpShort [])) < val c.DeltaSpot then
            val c.DeltaSpot
          else val (api.Neg (api.Add c.DeltaPerpLong c.DeltaPerpShort []))))
        ↔
        100 * |val c.DeltaSpot - (val (-c.DeltaPerpShort) - val c.DeltaPerpLong)| ≤
          val c.DeltaUpper *
            max (val c.DeltaSpot) (val (-c.DeltaPerpShort) - val c.DeltaPerpLong)) := by
    intro hs hk hu hle
    have hl0 := val_nonneg c.DeltaPerpLong
    have hs0 := val_nonneg c.DeltaSpot
    rw [val_Neg_net _ _ hle]
    by_cases hc : val (-c.DeltaPerpShort) - val c.DeltaPerpLong < val c.DeltaSpot
    · rw [if_pos hc, if_pos hc, val_Mul_small _ _ hu (by rw [val_val]; exact hs), val_val,
        val_Mul_100 _ (by rw [val_val, val_total_pos _ _ _ hle hc]; omega), val_val,
        val_total_pos _ _ _ hle hc, max_eq_left (le_of_lt hc),
        abs_of_nonneg (by omega)]
    · have hval : val (val (-c.DeltaPerpShort) - val c.DeltaPerpLong) =
          val (-c.DeltaPerpShort) - val c.DeltaPerpLong :=
        val_of_range (by omega) (by have := two_pow_63_le; omega)
      rw [if_neg hc, if_neg hc, val_Mul_small _ _ hu (by rw [hval]; omega), hval,
        val_Mul_100 _ (by rw [val_val, val_total_neg _ _ _ hc]; omega), val_val,
        val_total_neg _ _ _ hc, max_eq_right (by omega),
        abs_of_nonpos (by omega), neg_sub]
  constructor
  · rintro ⟨h1, h2, h3, h4, h5, -, h7, -, h9, h10, h11, h12⟩
    have hle := (net_nonpos_iff _ _ h3 h4).1 h11
    have hl := (hlev.1 ⟨h9, le_trans h10 h7⟩).1
    exact ⟨h1, h2, h3, h4, h5, h7, hl, h10, hle, (hfinal h2 h4 h5 hle).1 h12⟩
  · rintro ⟨h1, h2, h3, h4, h5, h7, hl, h10, hle, h12⟩
    refine ⟨h1, h2, h3, h4, h5, ?_, h7, ?_, ?_, h10, (net_nonpos_iff _ _ h3 h4).2 hle,
      (hfinal h2 h4 h5 hle).2 h12⟩
    · omega
    · omega
    · exact (hlev.2 ⟨hl, le_trans h10 h7⟩).1


theorem nonPosVal_eq (v : Int) : nonPosVal v = -(val (-v)) := by
  unfold nonPosVal val ScalarField
  split_ifs <;> omega

theorem val_neg_val (v : Int) : val (-(val v)) = val (-v) := by
  unfold val ScalarField
  omega

/-- Arithmetic content of the Risk-Neutral circuit. -/
theorem RiskNeutral_Define_ok_iff (c : ZKRiskNeutralCircuit) :
    c.Define = Except.ok () ↔
      val c.DeltaMin ≤ val c.DeltaMax ∧ val c.DeltaUpper ≤ 100 ∧ val c.LeverageUpper ≤ 100 ∧
      val c.LeverageConfirm = threeWay (val c.Leverage) (val c.LeverageUpper) ∧
      val c.DeltaConfirm =
        threeWay ((100 * (val c.DeltaMax - val c.DeltaMin)) % ScalarField)
          ((val c.DeltaUpper * val c.DeltaMax) % ScalarField) := by
  unfold ZKRiskNeutralCircuit.Define
  simp only [bind_unit_ok_iff, api.AssertIsEqual_ok, api.AssertIsLessOrEqual_ok, val_100,
    val_zero, val_Cmp, val_Mul]
  have hsub : (val (api.Sub c.DeltaMax c.DeltaMin) * 100) % ScalarField =
      (100 * (val c.DeltaMax - val c.DeltaMin)) % ScalarField := by
    unfold api.Sub val ScalarField
    omega
  rw [hsub]
  unfold threeWay
  have h1 := val_nonneg c.DeltaMin
  have h2 := val_nonneg c.DeltaUpper
  have h3 := val_nonneg c.LeverageUpper
  have h4 := val_nonneg c.Leverage
  constructor
  · rintro ⟨a1, -, a3, -, -, a6, -, a8, a9⟩
    exact ⟨a1, a3, a6, a8.symm, a9.symm⟩
  · rintro ⟨a1, a3, a6, a8, a9⟩
    exact ⟨a1, h1, a3, h2, h3, a6, h4, a8.symm, a9.symm⟩

/-! ## Funding-Rate-Neutrality circuit -/

/-- C1: every assignment accepted by `ZbFrCircuit.Define` meets the tolerance over
exact integers, `100 * |long + short + spot| ≤ deltaUpper * max(spot, -(long + short))`,
with the short leg read as a non-positive integer. -/
theorem C1_tolerance_sound (c : ZbFrCircuit) (h : c.Define = Except.ok ()) :
    100 * |val c.DeltaPerpLong + nonPosVal c.DeltaPerpShort + val c.DeltaSpot| ≤
      val c.DeltaUpper *
        max (val c.DeltaSpot) (-(val c.DeltaPerpLong + nonPosVal c.DeltaPerpShort)) := by
  obtain ⟨-, -, -, -, -, -, -, -, -, h10⟩ := (ZbFr_Define_ok_iff c).1 h
  rw [nonPosVal_eq]
  have e1 : val c.DeltaPerpLong + -val (-c.DeltaPerpShort) + val c.DeltaSpot =
      val c.DeltaSpot - (val (-c.DeltaPerpShort) - val c.DeltaPerpLong) := by ring
  have e2 : -(val c.DeltaPerpLong + -val (-c.DeltaPerpShort)) =
      val (-c.DeltaPerpShort) - val c.DeltaPerpLong := by ring
  rw [e1, e2]
  exact h10

set_option maxRecDepth 100000 in
/-- C1 at a hedged book: spot 1000, long 50, short -1030, tolerance 5. -/
theorem C1_tolerance_sound_witness :
    ZbFrCircuit.Define ⟨2, 1000, 50, -1030, 3, 5, 10005⟩ = Except.ok () ∧
    100 * |val 50 + nonPosVal (-1030) + val 1000| ≤
      val 5 * max (val 1000) (-(val 50 + nonPosVal (-1030))) :=
  ⟨by decide, C1_tolerance_sound ⟨2, 1000, 50, -1030, 3, 5, 10005⟩ (by decide)⟩

/-- C4: every assignment accepted by `ZbFrCircuit.Define` has
`1 ≤ leverage ≤ leverageUpper ≤ 100` and `0 ≤ deltaUpper ≤ 100` on canonical values. -/
theorem C4_leverage_cap (c : ZbFrCircuit) (h : c.Define = Except.ok ()) :
    1 ≤ val c.Leverage ∧ val c.Leverage ≤ val c.LeverageUpper ∧ val c.LeverageUpper ≤ 100 ∧
      0 ≤ val c.DeltaUpper ∧ val c.DeltaUpper ≤ 100 := by
  obtain ⟨-, -, -, -, h5, h6, h7, h8, -, -⟩ := (ZbFr_Define_ok_iff c).1 h
  exact ⟨h7, h8, h6, val_nonneg _, h5⟩

set_option maxRecDepth 100000 in
/-- C4 at the assignment of `main`. -/
theorem C4_leverage_cap_witness :
    zbFrAssignment.Define = Except.ok () ∧
    (1 ≤ val zbFrAssignment.Leverage ∧
      val zbFrAssignment.Leverage ≤ val zbFrAssignment.LeverageUpper ∧
      val zbFrAssignment.LeverageUpper ≤ 100 ∧
      0 ≤ val zbFrAssignment.DeltaUpper ∧ val zbFrAssignment.DeltaUpper ≤ 100) :=
  ⟨by decide, C4_leverage_cap zbFrAssignment (by decide)⟩

/-- C5: an assignment whose `projectId` is not the field element `10005` never
satisfies `ZbFrCircuit.Define`, whatever its other values. -/
theorem C5_policy_binding (c : ZbFrCircuit) (h : val c.ProjectId ≠ 10005) :
    c.Define ≠ Except.ok () := by
  intro hok
  exact h ((ZbFr_Define_ok_iff c).1 hok).1

/-- C5 at scenario C: the assignment of `main` with `projectId = 1`. -/
theorem C5_policy_binding_witness :
    val 1 ≠ 10005 ∧ ZbFrCircuit.Define ⟨1, 0, 0, 0, 3, 5, 1⟩ ≠ Except.ok () :=
  ⟨by decide, C5_policy_binding ⟨1, 0, 0, 0, 3, 5, 1⟩ (by decide)⟩

/-- C6: every assignment accepted by `ZbFrCircuit.Define` has spot and long legs in
`[0, 2^63)`, a short leg that is the residue of an integer in `(-2^63, 0]`, and a
signed net perpetual exposure `long + short ≤ 0`. -/
theorem C6_sign_conventions (c : ZbFrCircuit) (h : c.Define = Except.ok ()) :
    (0 ≤ val c.DeltaSpot ∧ val c.DeltaSpot < 2 ^ 63) ∧
    (0 ≤ val c.DeltaPerpLong ∧ val c.DeltaPerpLong < 2 ^ 63) ∧
    (-(2 : Int) ^ 63 < nonPosVal c.DeltaPerpShort ∧ nonPosVal c.DeltaPerpShort ≤ 0 ∧
      val (nonPosVal c.DeltaPerpShort) = val c.DeltaPerpShort) ∧
    val c.DeltaPerpLong + nonPosVal c.DeltaPerpShort ≤ 0 := by
  obtain ⟨-, h2, h3, h4, -, -, -, -, h9, -⟩ := (ZbFr_Define_ok_iff c).1 h
  have hk0 := val_nonneg (-c.DeltaPerpShort)
  have hres : val (nonPosVal c.DeltaPerpShort) = val c.DeltaPerpShort := by
    unfold nonPosVal val ScalarField
    split_ifs <;> omega
  refine ⟨⟨val_nonneg _, h2⟩, ⟨val_nonneg _, h3⟩, ⟨?_, ?_, hres⟩, ?_⟩
  · rw [nonPosVal_eq]; omega
  · rw [nonPosVal_eq]; omega
  · rw [nonPosVal_eq]; omega

set_option maxRecDepth 100000 in
/-- C6 at a hedged book: spot 1000, long 50, short -1030. -/
theorem C6_sign_conventions_witness :
    ZbFrCircuit.Define ⟨2, 1000, 50, -1030, 3, 5, 10005⟩ = Except.ok () ∧
    ((0 ≤ val 1000 ∧ val 1000 < 2 ^ 63) ∧
    (0 ≤ val 50 ∧ val 50 < 2 ^ 63) ∧
    (-(2 : Int) ^ 63 < nonPosVal (-1030) ∧ nonPosVal (-1030) ≤ 0 ∧
      val (nonPosVal (-1030)) = val (-1030)) ∧
    val 50 + nonPosVal (-1030) ≤ 0) :=
  ⟨by decide, C6_sign_conventions ⟨2, 1000, 50, -1030, 3, 5, 10005⟩ (by decide)⟩

/-- C8: integers within the stated ranges (legs of 63 bits, net exposure not long,
thresholds in `[0, 100]`, `1 ≤ leverage ≤ leverageUpper`, `projectId = 10005`, tolerance
met) give an assignment that satisfies `ZbFrCircuit.Define`, both as given and with
every value replaced by its residue modulo the field order. -/
theorem C8_completeness
    (leverage deltaSpot deltaPerpLong deltaPerpShort leverageUpper deltaUpper projectId : Int)
    (hs : 0 ≤ deltaSpot ∧ deltaSpot ≤ 2 ^ 63 - 1)
    (hl : 0 ≤ deltaPerpLong ∧ deltaPerpLong ≤ 2 ^ 63 - 1)
    (hsh : -(2 ^ 63 - 1) ≤ deltaPerpShort ∧ deltaPerpShort ≤ 0)
    (hnet : deltaPerpLong + deltaPerpShort ≤ 0)
    (hdu : 0 ≤ deltaUpper ∧ deltaUpper ≤ 100)
    (hlu : 0 ≤ leverageUpper ∧ leverageUpper ≤ 100)
    (hlev : 1 ≤ leverage ∧ leverage ≤ leverageUpper)
    (hp : projectId = 10005)
    (htol : 100 * |deltaPerpLong + deltaPerpShort + deltaSpot| ≤
      deltaUpper * max deltaSpot (-(deltaPerpLong + deltaPerpShort))) :
    ZbFrCircuit.Define
        ⟨leverage, deltaSpot, deltaPerpLong, deltaPerpShort, leverageUpper, deltaUpper,
          projectId⟩ = Except.ok () ∧
    ZbFrCircuit.Define
        ⟨val leverage, val deltaSpot, val deltaPerpLong, val deltaPerpShort,
          val leverageUpper, val deltaUpper, val projectId⟩ = Except.ok () := by
  have hq := two_pow_63_le
  have v1 : val leverage = leverage := val_of_range (by omega) (by omega)
  have v2 : val deltaSpot = deltaSpot := val_of_range (by omega) (by omega)
  have v3 : val deltaPerpLong = deltaPerpLong := val_of_range (by omega) (by omega)
  have v4 : val (-deltaPerpShort) = -deltaPerpShort := val_of_range (by omega) (by omega)
  have v5 : val leverageUpper = leverageUpper := val_of_range (by omega) (by omega)
  have v6 : val deltaUpper = deltaUpper := val_of_range (by omega) (by omega)
  have v7 : val projectId = 10005 := by rw [hp]; exact val_10005
  have e1 : deltaSpot - (-deltaPerpShort - deltaPerpLong) =
      deltaPerpLong + deltaPerpShort + deltaSpot := by ring
  have e2 : -deltaPerpShort - deltaPerpLong = -(deltaPerpLong + deltaPerpShort) := by ring
  have key : ZbFrCircuit.Define
      ⟨leverage, deltaSpot, deltaPerpLong, deltaPerpShort, leverageUpper, deltaUpper,
        projectId⟩ = Except.ok () := by
    rw [ZbFr_Define_ok_iff]
    simp only [v1, v2, v3, v4, v5, v6, v7]
    rw [e1, e2]
    refine ⟨trivial, ?_, ?_, ?_, hdu.2, hlu.2, hlev.1, hlev.2, ?_, htol⟩ <;> omega
  refine ⟨key, ?_⟩
  rw [ZbFr_Define_ok_iff] at key ⊢
  simpa only [val_val, val_neg_val] using key

/-- C8 at scenario B, the assignment of `main`. -/
theorem C8_completeness_witness :
    zbFrAssignment.Define = Except.ok () ∧
    ZbFrCircuit.Define ⟨val 1, val 0, val 0, val 0, val 3, val 5, val 10005⟩ = Except.ok () :=
  C8_completeness 1 0 0 0 3 5 10005 (by decide) (by decide) (by decide) (by decide)
    (by decide) (by decide) (by decide) rfl (by decide)

/-- C10: an accepted assignment stays accepted when `deltaUpper` is replaced by any
`u` with `deltaUpper ≤ u ≤ 100`, and when `leverageUpper` is replaced by any `l` with
`leverageUpper ≤ l ≤ 100`, all other values unchanged. -/
theorem C10_threshold_monotone (c : ZbFrCircuit) (h : c.Define = Except.ok ()) :
    (∀ u : Int, val c.DeltaUpper ≤ val u → val u ≤ 100 →
      ZbFrCircuit.Define
        ⟨c.Leverage, c.DeltaSpot, c.DeltaPerpLong, c.DeltaPerpShort, c.LeverageUpper, u,
          c.ProjectId⟩ = Except.ok ()) ∧
    (∀ l : Int, val c.LeverageUpper ≤ val l → val l ≤ 100 →
      ZbFrCircuit.Define
        ⟨c.Leverage, c.DeltaSpot, c.DeltaPerpLong, c.DeltaPerpShort, l, c.DeltaUpper,
          c.ProjectId⟩ = Except.ok ()) := by
  obtain ⟨h1, h2, h3, h4, h5, h6, h7, h8, h9, h10⟩ := (ZbFr_Define_ok_iff c).1 h
  constructor
  · intro u hu1 hu2
    rw [ZbFr_Define_ok_iff]
    refine ⟨h1, h2, h3, h4, hu2, h6, h7, h8, h9, le_trans h10 ?_⟩
    apply mul_le_mul_of_nonneg_right hu1
    exact le_trans (val_nonneg c.DeltaSpot) (le_max_left _ _)
  · intro l hl1 hl2
    rw [ZbFr_Define_ok_iff]
    exact ⟨h1, h2, h3, h4, h5, hl2, h7, le_trans h8 hl1, h9, h10⟩

set_option maxRecDepth 100000 in
/-- C10 at a hedged book with tolerance 5 loosened to 40 and leverage cap 3 raised to 100. -/
theorem C10_threshold_monotone_witness :
    ZbFrCircuit.Define ⟨2, 1000, 50, -1030, 3, 5, 10005⟩ = Except.ok () ∧
    ZbFrCircuit.Define ⟨2, 1000, 50, -1030, 3, 40, 10005⟩ = Except.ok () ∧
    ZbFrCircuit.Define ⟨2, 1000, 50, -1030, 100, 5, 10005⟩ = Except.ok () :=
  ⟨by decide,
    (C10_threshold_monotone ⟨2, 1000, 50, -1030, 3, 5, 10005⟩ (by decide)).1 40
      (by decide) (by decide),
    (C10_threshold_monotone ⟨2, 1000, 50, -1030, 3, 5, 10005⟩ (by decide)).2 100
      (by decide) (by decide)⟩

/-! ## Risk-Neutral circuit -/

set_option maxRecDepth 100000 in
/-- C7: an assignment satisfies `ZKRiskNeutralCircuit.Define` exactly when, on canonical
values, `deltaMin ≤ deltaMax`, `deltaUpper ≤ 100`, `leverageUpper ≤ 100`, `leverageConfirm`
is the three-way comparison of `leverage` with `leverageUpper`, and `deltaConfirm` is the
three-way comparison of `(100 * (deltaMax - deltaMin)) mod p` with
`(deltaUpper * deltaMax) mod p`; the assignment of scenario A satisfies it. -/
theorem C7_riskNeutral_characterisation :
    (∀ c : ZKRiskNeutralCircuit,
      c.Define = Except.ok () ↔
        val c.DeltaMin ≤ val c.DeltaMax ∧ val c.DeltaUpper ≤ 100 ∧
        val c.LeverageUpper ≤ 100 ∧
        val c.LeverageConfirm = threeWay (val c.Leverage) (val c.LeverageUpper) ∧
        val c.DeltaConfirm =
          threeWay ((100 * (val c.DeltaMax - val c.DeltaMin)) % ScalarField)
            ((val c.DeltaUpper * val c.DeltaMax) % ScalarField)) ∧
    riskNeutralAssignment.Define = Except.ok () :=
  ⟨RiskNeutral_Define_ok_iff, by decide⟩

/-- C9 (amended): for an accepted assignment with `leverage` and `leverageUpper` in
`[0, 100]`, `leverageConfirm` is `-1` (the field element `p - 1`) when
`leverage < leverageUpper`, `0` when they are equal and `+1` when
`leverage > leverageUpper`: the sign of `a - b` for `compare(a, b)`. -/
theorem C9_leverageConfirm_sign (c : ZKRiskNeutralCircuit) (h : c.Define = Except.ok ())
    (_hl : 0 ≤ val c.Leverage ∧ val c.Leverage ≤ 100)
    (_hu : 0 ≤ val c.LeverageUpper ∧ val c.LeverageUpper ≤ 100) :
    (val c.Leverage < val c.LeverageUpper → val c.LeverageConfirm = ScalarField - 1) ∧
    (val c.Leverage = val c.LeverageUpper → val c.LeverageConfirm = 0) ∧
    (val c.LeverageUpper < val c.Leverage → val c.LeverageConfirm = 1) := by
  obtain ⟨-, -, -, h4, -⟩ := (RiskNeutral_Define_ok_iff c).1 h
  rw [h4]
  unfold threeWay
  refine ⟨fun hlt => ?_, fun heq => ?_, fun hgt => ?_⟩
  · rw [if_pos hlt]
  · rw [if_neg (by omega), if_pos heq]
  · rw [if_neg (by omega), if_neg (by omega)]

set_option maxRecDepth 100000 in
/-- C9 (amended) at scenario A: `leverage = 1 < 3 = leverageUpper` and the bit is `-1`. -/
theorem C9_leverageConfirm_sign_witness :
    riskNeutralAssignment.Define = Except.ok () ∧
    ((val riskNeutralAssignment.Leverage < val riskNeutralAssignment.LeverageUpper →
        val riskNeutralAssignment.LeverageConfirm = ScalarField - 1) ∧
      (val riskNeutralAssignment.Leverage = val riskNeutralAssignment.LeverageUpper →
        val riskNeutralAssignment.LeverageConfirm = 0) ∧
      (val riskNeutralAssignment.LeverageUpper < val riskNeutralAssignment.Leverage →
        val riskNeutralAssignment.LeverageConfirm = 1)) :=
  ⟨by decide,
    C9_leverageConfirm_sign riskNeutralAssignment (by decide) (by decide) (by decide)⟩

set_option maxRecDepth 100000 in
/-- C9 as stated fails at scenario A: the assignment is accepted with `leverage` and
`leverageUpper` in `[0, 100]` and `leverage < leverageUpper`, yet `leverageConfirm` is
`p - 1`, not `+1`. -/
theorem C9_sign_counterexample :
    riskNeutralAssignment.Define = Except.ok () ∧
    (0 ≤ val riskNeutralAssignment.Leverage ∧ val riskNeutralAssignment.Leverage ≤ 100) ∧
    (0 ≤ val riskNeutralAssignment.LeverageUpper ∧
      val riskNeutralAssignment.LeverageUpper ≤ 100) ∧
    val riskNeutralAssignment.Leverage < val riskNeutralAssignment.LeverageUpper ∧
    val riskNeutralAssignment.LeverageConfirm = ScalarField - 1 ∧
    val riskNeutralAssignment.LeverageConfirm ≠ 1 := by
  decide

set_option maxRecDepth 100000 in
/-- C2 at `wrapAssignment`: the circuit accepts `deltaConfirm = -1` although, over exact
integers, `100 * (deltaMax - deltaMin) > deltaUpper * deltaMax`. -/
theorem C2_deltaConfirm_wraps :
    wrapAssignment.Define = Except.ok () ∧
    100 * (val wrapAssignment.DeltaMax - val wrapAssignment.DeltaMin) >
      val wrapAssignment.DeltaUpper * val wrapAssignment.DeltaMax ∧
    val wrapAssignment.DeltaConfirm = ScalarField - 1 ∧
    val wrapAssignment.DeltaConfirm ≠ 1 := by
  decide

set_option maxRecDepth 100000 in
/-- C3 at `negLeverageAssignment` and `negDeltaMinAssignment`: the circuit accepts an
assignment with `leverage = -1` and one with `deltaMin = -2`, because
`api.AssertIsLessOrEqual(0, x)` holds for every field element `x`. -/
theorem C3_negative_inputs_accepted :
    (negLeverageAssignment.Leverage < 0 ∧
      negLeverageAssignment.Define = Except.ok ()) ∧
    (negDeltaMinAssignment.DeltaMin < 0 ∧
      negDeltaMinAssignment.Define = Except.ok ()) ∧
    (∀ x : Int, api.AssertIsLessOrEqual 0 x = Except.ok ()) :=
  ⟨by decide, by decide, api.AssertIsLessOrEqual_zero⟩

end ZKFi
